import Mathlib

/-!
Shallow embedding of the order-book aggregation core of the
Orderbook-Depth-3D-Visualizer repository, together with proofs of the
spec claims about it.

Conventions:
* JavaScript numbers are modelled as rationals (`ℚ`); all arithmetic in the
  embedded fragment is exact on the inputs the claims mention.
* JavaScript `Map` objects are modelled as insertion-ordered association
  lists, `Array` as `List`, optional record fields as `Option`.
* JavaScript's built-in stable `Array.prototype.sort` is modelled by
  `List.insertionSort`, which is stable and agrees with every stable sort
  for a total preorder comparator.
-/

/-- `OrderbookLevel` from src/types/orderbook.ts. -/
structure OrderbookLevel where
  price : ℚ
  quantity : ℚ
  side : String
  venue : Option String
  timestamp : Option ℕ
  color : Option String
deriving DecidableEq, Repr

/-- Per-venue snapshot stored in `MultiVenueOrderbookData` (src/types/orderbook.ts). -/
structure VenueSnapshot where
  bids : List OrderbookLevel
  asks : List OrderbookLevel
  isConnected : Bool
  lastUpdate : ℕ
  error : Option String
deriving DecidableEq, Repr

/-- `HistoricalDataPoint` from src/types/orderbook.ts. -/
structure HistoricalDataPoint where
  timestamp : ℕ
  bids : List OrderbookLevel
  asks : List OrderbookLevel
  venue : String
deriving DecidableEq, Repr

/-! ### Sorting comparators used by useMultiVenueOrderbook.ts

The hook sorts merged bids with `(a, b) => b.price - a.price` (descending)
and merged asks with `(a, b) => a.price - b.price` (ascending).  As total
preorders these comparators are `bidLe` and `askLe`. -/

/-- "a may come before b" for the bid comparator `b.price - a.price`. -/
def bidLe (a b : OrderbookLevel) : Prop := b.price ≤ a.price

/-- "a may come before b" for the ask comparator `a.price - b.price`. -/
def askLe (a b : OrderbookLevel) : Prop := a.price ≤ b.price

instance : DecidableRel bidLe := fun a b => (inferInstance : Decidable (b.price ≤ a.price))

instance : DecidableRel askLe := fun a b => (inferInstance : Decidable (a.price ≤ b.price))

instance : IsTrans OrderbookLevel bidLe := ⟨fun _ _ _ h1 h2 => le_trans h2 h1⟩

instance : IsTotal OrderbookLevel bidLe := ⟨fun a b => le_total b.price a.price⟩

instance : IsTrans OrderbookLevel askLe := ⟨fun _ _ _ h1 h2 => le_trans h1 h2⟩

instance : IsTotal OrderbookLevel askLe := ⟨fun a b => le_total a.price b.price⟩

/-- The aggregation step of `useMultiVenueOrderbook`
(src/hooks/useMultiVenueOrderbook.ts lines 160-188): concatenate the bids
and asks of every selected venue (in `Object.entries` = insertion order),
sort bids descending / asks ascending by price, and keep the first 50 of
each side.  No price-deduplication happens here. -/
def aggregatedOrderbook (selectedVenues : List String)
    (venueData : List (String × VenueSnapshot)) :
    List OrderbookLevel × List OrderbookLevel :=
  let entries := venueData.filter (fun p => selectedVenues.contains p.1)
  let allBids := entries.foldl (fun acc p => acc ++ p.2.bids) []
  let allAsks := entries.foldl (fun acc p => acc ++ p.2.asks) []
  ((List.insertionSort bidLe allBids).take 50,
   (List.insertionSort askLe allAsks).take 50)

/-! ### aggregateByPrice (src/hooks/useMultiVenueOrderbook.ts lines 199-215) -/

/-- JS truthiness of the optional `timestamp` field: present and nonzero. -/
def tsTruthy : Option ℕ → Bool
  | none => false
  | some t => t ≠ 0

/-- `if (level.timestamp && (!existing.timestamp || level.timestamp > existing.timestamp))
existing.timestamp = level.timestamp` — keep the most recent timestamp. -/
def tsUpdate (existing incoming : Option ℕ) : Option ℕ :=
  if tsTruthy incoming ∧ (¬ tsTruthy existing ∨ incoming.getD 0 > existing.getD 0)
  then incoming else existing

/-- Merging an incoming level into the stored level at the same price:
`existing.quantity += level.quantity` plus the timestamp refresh. -/
def mergeLevel (existing incoming : OrderbookLevel) : OrderbookLevel :=
  { existing with
      quantity := existing.quantity + incoming.quantity
      timestamp := tsUpdate existing.timestamp incoming.timestamp }

/-- One `priceMap` update of `aggregateByPrice`: a `Map` keyed by price,
updating the first (and only) entry with that price in place, otherwise
appending (`{...level}` copies every field). -/
def insertLevel : List OrderbookLevel → OrderbookLevel → List OrderbookLevel
  | [], l => [l]
  | e :: rest, l =>
      if e.price = l.price then mergeLevel e l :: rest
      else e :: insertLevel rest l

/-- `aggregateByPrice` (src/hooks/useMultiVenueOrderbook.ts lines 199-215):
fold every level into the price-keyed map, then read the values back in
insertion order (`Array.from(priceMap.values())`). -/
def aggregateByPrice (levels : List OrderbookLevel) : List OrderbookLevel :=
  levels.foldl insertLevel []

/-! ### Placeholder regeneration tick (src/hooks/useMultiVenueOrderbook.ts lines 127-157)

The 2-second `setInterval` callback: for every selected venue that is
missing or not connected, overwrite its slot with freshly generated demo
data tagged `isConnected: false` and a non-null error string.  The random
demo generator `generateDemoData` is passed in as an oracle. -/
/-- JS truthiness of `updated[venue] && updated[venue].isConnected`:
a venue counts as live iff its slot exists and is flagged connected. -/
def snapshotIsLive : Option VenueSnapshot → Bool
  | none => false
  | some s => s.isConnected

def placeholderTick (selectedVenues : List String)
    (generateDemoData : String → List OrderbookLevel × List OrderbookLevel)
    (now : ℕ) (prev : String → Option VenueSnapshot) :
    String → Option VenueSnapshot :=
  fun venue =>
    if selectedVenues.contains venue ∧ snapshotIsLive (prev venue) = false then
      some { bids := (generateDemoData venue).1
             asks := (generateDemoData venue).2
             isConnected := false
             lastUpdate := now
             error := some "Demo data - connection failed" }
    else prev venue

/-! ### Historical ring buffer (HistoricalDataService.addDataPoint) -/

/-- JS `array.slice(-n)`: the last `n` elements; `slice(-0)` is `slice(0)`,
the whole array. -/
def jsSliceLast (n : ℕ) (l : List HistoricalDataPoint) : List HistoricalDataPoint :=
  if n = 0 then l else l.drop (l.length - n)

/-- `HistoricalDataService.addDataPoint` for one time-range bucket with
capacity `maxDataPoints`: push the point, then
`if (length > maxDataPoints) data = data.slice(-maxDataPoints)`. -/
def addDataPoint (maxDataPoints : ℕ) (buffer : List HistoricalDataPoint)
    (point : HistoricalDataPoint) : List HistoricalDataPoint :=
  let buf := buffer ++ [point]
  if maxDataPoints < buf.length then jsSliceLast maxDataPoints buf else buf

/-! ### Pressure-zone analysis (src/utils/pressureZoneAnalysis.ts)

The file declares its own local `OrderbookLevel` with just price, quantity
and side; we call it `PZLevel`. -/

/-- The local `OrderbookLevel` of pressureZoneAnalysis.ts. -/
structure PZLevel where
  price : ℚ
  quantity : ℚ
  side : String
deriving DecidableEq, Repr

/-- `PressureZone` (pressureZoneAnalysis.ts).  The `id` field — a
`Math.random()`-derived tag with no semantic content — is omitted. -/
structure PressureZone where
  startPrice : ℚ
  endPrice : ℚ
  totalVolume : ℚ
  averagePrice : ℚ
  intensity : ℚ
  side : String
  levels : List PZLevel
deriving DecidableEq, Repr

/-- `Math.min(...prices)` over a nonempty list (call sites always pass a
nonempty group). -/
def listMin : List ℚ → ℚ
  | [] => 0
  | x :: xs => xs.foldl min x

/-- `Math.max(...prices)` over a nonempty list. -/
def listMax : List ℚ → ℚ
  | [] => 0
  | x :: xs => xs.foldl max x

/-- `createPressureZone` (pressureZoneAnalysis.ts lines 108-123), minus the
random `id`.  `averagePrice` divides by the total volume; every call site
passes levels accumulated from a nonempty group. -/
def createPressureZone (levels : List PZLevel) : PressureZone :=
  let totalVolume := levels.foldl (fun sum l => sum + l.quantity) 0
  let averagePrice := levels.foldl (fun sum l => sum + l.price * l.quantity) 0 / totalVolume
  let prices := levels.map (·.price)
  { startPrice := listMin prices
    endPrice := listMax prices
    totalVolume := totalVolume
    averagePrice := averagePrice
    intensity := 0
    side := (levels.headD ⟨0, 0, ""⟩).side
    levels := levels }

/-- Descending-price preorder for the bid branch of `groupPriceLevels`'
comparator `(a, b) => levels[0].side === 'bid' ? b.price - a.price : a.price - b.price`. -/
def pzBidLe (a b : PZLevel) : Prop := b.price ≤ a.price

/-- Ascending-price preorder for the ask branch of the same comparator. -/
def pzAskLe (a b : PZLevel) : Prop := a.price ≤ b.price

instance : DecidableRel pzBidLe := fun a b => (inferInstance : Decidable (b.price ≤ a.price))

instance : DecidableRel pzAskLe := fun a b => (inferInstance : Decidable (a.price ≤ b.price))

/-- The grouping loop of `groupPriceLevels` (pressureZoneAnalysis.ts lines
83-103), including the final-group push with its (always-true)
nonemptiness guard. -/
def groupLoop (groupingPercent : ℚ) : List PZLevel → ℚ → List PZLevel →
    List PressureZone → List PressureZone
  | [], _, currentGroup, zones =>
      if 0 < currentGroup.length then zones ++ [createPressureZone currentGroup] else zones
  | level :: rest, groupStartPrice, currentGroup, zones =>
      let priceThreshold := groupStartPrice * (groupingPercent / 100)
      if |level.price - groupStartPrice| ≤ priceThreshold then
        groupLoop groupingPercent rest groupStartPrice (currentGroup ++ [level]) zones
      else
        groupLoop groupingPercent rest level.price [level]
          (zones ++ if 0 < currentGroup.length then [createPressureZone currentGroup] else [])

/-- `groupPriceLevels` (pressureZoneAnalysis.ts lines 71-106): sort by the
side-dependent comparator, then scan, opening a new group whenever the
price is farther than `anchor * groupingPercent / 100` from the group's
anchor (its first price). -/
def groupPriceLevels (levels : List PZLevel) (groupingPercent : ℚ) : List PressureZone :=
  let sortedLevels :=
    if (levels.headD ⟨0, 0, ""⟩).side = "bid" then List.insertionSort pzBidLe levels
    else List.insertionSort pzAskLe levels
  match sortedLevels with
  | [] => []
  | first :: rest => groupLoop groupingPercent rest first.price [first] []

/-- `calculateVWAP` (pressureZoneAnalysis.ts lines 141-146). -/
def calculateVWAP (levels : List PZLevel) : ℚ :=
  let totalVolume := levels.foldl (fun sum l => sum + l.quantity) 0
  if totalVolume = 0 then 0
  else levels.foldl (fun sum l => sum + l.price * l.quantity) 0 / totalVolume

/-! ### Orderbook imbalance (src/components/MarketDepthHeatmap.tsx lines 150-179) -/

/-- The `ImbalanceData` record computed by the `OrderbookImbalance`
component.  The source field `ratio` is called `ratioValue` here.  When
`askVolume = 0` with positive bids, JS produces `Infinity` where `ℚ`
division yields `0`; none of the claims touches that case. -/
structure ImbalanceData where
  ratioValue : ℚ
  bidVolume : ℚ
  askVolume : ℚ
  imbalancePercentage : ℚ
  dominantSide : String
deriving DecidableEq, Repr

/-- The `imbalanceData` memo of `OrderbookImbalance`: sum the top-10
quantities per side, `ratio = totalVolume > 0 ? bidVolume / askVolume : 1`,
dominant side by the 1.2 / 0.8 thresholds, percentage as
`|difference| / totalVolume * 100` (`Math.abs` applied on return). -/
def imbalanceData (bids asks : List OrderbookLevel) : ImbalanceData :=
  let topBids := bids.take 10
  let topAsks := asks.take 10
  let bidVolume : ℚ := topBids.foldl (fun sum l => sum + l.quantity) 0
  let askVolume : ℚ := topAsks.foldl (fun sum l => sum + l.quantity) 0
  let totalVolume : ℚ := bidVolume + askVolume
  let r : ℚ := if 0 < totalVolume then bidVolume / askVolume else 1
  if 12/10 < r then
    { ratioValue := r, bidVolume := bidVolume, askVolume := askVolume
      imbalancePercentage := |(bidVolume - askVolume) / totalVolume * 100|
      dominantSide := "bid" }
  else if r < 8/10 then
    { ratioValue := r, bidVolume := bidVolume, askVolume := askVolume
      imbalancePercentage := |(askVolume - bidVolume) / totalVolume * 100|
      dominantSide := "ask" }
  else
    { ratioValue := r, bidVolume := bidVolume, askVolume := askVolume
      imbalancePercentage := |(0 : ℚ)|
      dominantSide := "balanced" }

/-! ### MultiVenueConnection (src/services/multiVenueService.ts)

A small transition system over the class's mutable state.  `connect` is
modelled on its production path (the branch that reaches
`createConnection`; the development-mode early return makes every other
event unreachable and is skipped).  WebSocket callbacks become events:
`wsOpen`/`wsClose` may fire only for a venue currently present in the
`connections` map.  The `setTimeout` scheduled by `ws.onclose` is recorded
in `pendingTimers` together with the attempt counter value captured by its
closure; the class keeps no handle to it, so nothing ever clears it. -/

/-- `reconnectAttempts.get(venueId) || 0` over the insertion-ordered map. -/
def mapGetD : List (String × ℕ) → String → ℕ
  | [], _ => 0
  | p :: rest, k => if p.1 = k then p.2 else mapGetD rest k

/-- `reconnectAttempts.set(k, v)`: update in place, else append. -/
def mapSet : List (String × ℕ) → String → ℕ → List (String × ℕ)
  | [], k, v => [(k, v)]
  | p :: rest, k, v => if p.1 = k then (k, v) :: rest else p :: mapSet rest k v

/-- `map.delete(k)`: drop the (unique) entry with that key. -/
def mapEraseKey (m : List (String × ℕ)) (k : String) : List (String × ℕ) :=
  m.eraseP (fun p => decide (p.1 = k))

/-- `connections.set(venueId, ws)` viewed on the key set. -/
def insertConn (c : List String) (v : String) : List String :=
  if v ∈ c then c else c ++ [v]

/-- The mutable state of a `MultiVenueConnection` instance. -/
structure ConnState where
  connections : List String
  callbacks : List String
  reconnectAttempts : List (String × ℕ)
  pendingTimers : List (String × ℚ × ℕ)
deriving DecidableEq, Repr

/-- `private maxReconnectAttempts = 5`. -/
def maxReconnectAttempts : ℕ := 5

/-- `shouldReconnect` (multiVenueService.ts lines 396-400): reconnect
unless the close code is 1000, 1001, 1008 or 4000. -/
def shouldReconnect (code : ℕ) : Bool :=
  !(code = 1000 ∨ code = 1001 ∨ code = 1008 ∨ code = 4000)

/-- The backoff delay scheduled by `ws.onclose`:
`Math.min(3000 * Math.pow(1.5, attempts), 60000)` milliseconds. -/
def reconnectDelay (attempts : ℕ) : ℚ :=
  min (3000 * (3/2) ^ attempts) 60000

/-- `disconnect(venueId)` (multiVenueService.ts lines 221-229): only if a
socket is mapped, close it (code 1000, so its late `onclose` schedules
nothing) and delete the venue from all three maps.  No timer handle is
stored, so `pendingTimers` is untouched. -/
def disconnectStep (s : ConnState) (v : String) : ConnState :=
  if v ∈ s.connections then
    { connections := s.connections.erase v
      callbacks := s.callbacks.erase v
      reconnectAttempts := mapEraseKey s.reconnectAttempts v
      pendingTimers := s.pendingTimers }
  else s

/-- Events driving a `MultiVenueConnection`. -/
inductive ConnEvent where
  | connect (venue : String)
  | wsOpen (venue : String)
  | wsClose (venue : String) (code : ℕ)
  | timerFire (venue : String)
  | disconnect (venue : String)
  | disconnectAll
deriving DecidableEq, Repr

/-- One transition.  `wsClose` runs the `ws.onclose` handler (lines
340-370): remove the socket and, when `shouldReconnect(code)` holds and
the attempt counter is below the budget, schedule a reconnect timer whose
closure captured the current counter.  `timerFire` runs such a timer:
bump the counter to the captured value + 1 and `createConnection`.
`wsOpen` runs `ws.onopen` (lines 266-283): reset the counter to 0.
`disconnectAll` (lines 231-235) disconnects every mapped venue. -/
def connStep (s : ConnState) (e : ConnEvent) : ConnState :=
  match e with
  | .connect v =>
      { s with callbacks := insertConn s.callbacks v
               connections := insertConn s.connections v }
  | .wsOpen v =>
      if v ∈ s.connections then
        { s with reconnectAttempts := mapSet s.reconnectAttempts v 0 }
      else s
  | .wsClose v code =>
      if v ∈ s.connections then
        let attempts := mapGetD s.reconnectAttempts v
        { s with
            connections := s.connections.erase v
            pendingTimers :=
              if shouldReconnect code ∧ attempts < maxReconnectAttempts then
                s.pendingTimers ++ [(v, reconnectDelay attempts, attempts)]
              else s.pendingTimers }
      else s
  | .timerFire v =>
      match s.pendingTimers.find? (fun t => decide (t.1 = v)) with
      | some t =>
          { s with
              pendingTimers := s.pendingTimers.eraseP (fun u => decide (u.1 = v))
              reconnectAttempts := mapSet s.reconnectAttempts v (t.2.2 + 1)
              connections := insertConn s.connections v }
      | none => s
  | .disconnect v => disconnectStep s v
  | .disconnectAll => s.connections.foldl disconnectStep s

/-- Run a sequence of events. -/
def connRun (s : ConnState) (es : List ConnEvent) : ConnState :=
  es.foldl connStep s

/-- The freshly constructed `MultiVenueConnection`. -/
def connInit : ConnState := ⟨[], [], [], []⟩

/-! ### Venue message parsers (src/services/multiVenueService.ts)

`parseMessage` receives an arbitrary decoded JSON value (plus whatever
else a caller might pass), so we model JavaScript values and the exact
operations the parsers perform on them.  A `TypeError` is `Except.error ()`. -/

/-- A JavaScript value as seen by `parseMessage`.  `nan` is kept separate
from `num` so that NaN comparisons come out false. -/
inductive Js where
  | null
  | undefined
  | bool (b : Bool)
  | num (q : ℚ)
  | nan
  | str (s : String)
  | arr (elems : List Js)
  | obj (fields : List (String × Js))

/-- JS truthiness. -/
def jsTruthy : Js → Bool
  | .null => false
  | .undefined => false
  | .bool b => b
  | .num q => decide (q ≠ 0)
  | .nan => false
  | .str s => decide (s ≠ "")
  | .arr _ => true
  | .obj _ => true

/-- `typeof x === 'object'` (true for objects, arrays and null). -/
def jsTypeofObject : Js → Bool
  | .null => true
  | .arr _ => true
  | .obj _ => true
  | _ => false

/-- `Array.isArray`. -/
def jsIsArray : Js → Bool
  | .arr _ => true
  | _ => false

/-- Property access `x.f`: a TypeError on null/undefined, a lookup on
objects, and `undefined` on the remaining primitives and on arrays (none
of the property names used by the parsers — data, b, a, bids, asks — is a
built-in property of those). -/
def jsGetField : Js → String → Except Unit Js
  | .null, _ => .error ()
  | .undefined, _ => .error ()
  | .obj fields, f => .ok (((fields.find? (fun p => decide (p.1 = f))).map (·.2)).getD .undefined)
  | _, _ => .ok .undefined

/-- One character of a string as a JS value (string destructuring). -/
def jsCharAt (s : String) (i : ℕ) : Js :=
  match s.data.get? i with
  | some c => .str (String.mk [c])
  | none => .undefined

/-- Array destructuring `[x, y] = v`: arrays and strings are iterable,
everything else raises a TypeError. -/
def jsDestructure2 : Js → Except Unit (Js × Js)
  | .arr xs => .ok (xs.getD 0 .undefined, xs.getD 1 .undefined)
  | .str s => .ok (jsCharAt s 0, jsCharAt s 1)
  | _ => .error ()

/-- Leading decimal literal of a string: optional whitespace, optional
sign, digits with an optional fraction part; trailing garbage is ignored,
as `parseFloat` does.  (Exponent forms and `Infinity` are not modelled;
they never decide a claim.) -/
def parseDecimalLiteral (s : String) : Option ℚ :=
  let cs := s.data.dropWhile (fun c => c = ' ' ∨ c = '\t' ∨ c = '\n' ∨ c = '\r')
  let signAndRest : Bool × List Char :=
    match cs with
    | '-' :: t => (true, t)
    | '+' :: t => (false, t)
    | t => (false, t)
  let intPart := signAndRest.2.takeWhile Char.isDigit
  let afterInt := signAndRest.2.dropWhile Char.isDigit
  let fracPart :=
    match afterInt with
    | '.' :: t => t.takeWhile Char.isDigit
    | _ => []
  if intPart.isEmpty ∧ fracPart.isEmpty then none
  else
    let digits : List Char → ℕ := fun ds => ds.foldl (fun a c => 10 * a + (c.toNat - 48)) 0
    let mag : ℚ := (digits intPart : ℚ) + (digits fracPart : ℚ) / (10 : ℚ) ^ fracPart.length
    some (if signAndRest.1 then -mag else mag)

/-- `parseFloat` on a non-array value: numbers pass through, strings are
parsed, and booleans, null, undefined, NaN and plain objects stringify to
non-numeric text. -/
def jsParseFloatAtom : Js → Js
  | .num q => .num q
  | .str s =>
      match parseDecimalLiteral s with
      | some q => .num q
      | none => .nan
  | _ => .nan

/-- `parseFloat(x)`: an array stringifies to its comma-joined elements, so
its leading element decides the parse (nested arrays, which JS would
flatten one more level, are approximated as NaN); everything else goes
through `jsParseFloatAtom`. -/
def jsParseFloat : Js → Js
  | .arr [] => .nan
  | .arr (x :: _) => jsParseFloatAtom x
  | v => jsParseFloatAtom v

/-- Binance's quantity filter `!isNaN(qty) && qty > 0` applied to a
`parseFloat` result. -/
def binanceKeep (v : Js) : Bool :=
  match v with
  | .num q => decide (0 < q)
  | _ => false

/-- Bybit's quantity filter `parseFloat(quantity) > 0` (false on NaN). -/
def bybitKeep (v : Js) : Bool :=
  match v with
  | .num q => decide (0 < q)
  | _ => false

/-- A level produced by `parseMessage`; price and quantity hold the raw
`parseFloat` results. -/
structure ParsedLevel where
  price : Js
  quantity : Js
  side : String
  venue : String
  timestamp : ℕ

/-- The `{ bids, asks }` result of a successful parse. -/
structure ParsedBook where
  bids : List ParsedLevel
  asks : List ParsedLevel

/-- `.filter(([_, quantity]) => keep(parseFloat(quantity)))` over the raw
elements: every element is destructured (a TypeError escapes), keeping the
destructured pairs whose quantity passes. -/
def filterQty (keep : Js → Bool) : List Js → Except Unit (List (Js × Js))
  | [] => .ok []
  | x :: xs => do
      let pq ← jsDestructure2 x
      let rest ← filterQty keep xs
      if keep (jsParseFloat pq.2) then .ok (pq :: rest) else .ok rest

/-- The element list of a value the caller has already checked with
`Array.isArray` (any other constructor is unreachable at the use sites). -/
def jsElems : Js → List Js
  | .arr xs => xs
  | _ => []

/-- The element list of an array value, `none` otherwise — used where the
code calls `.filter` on an unchecked value, which on a truthy non-array
raises a TypeError. -/
def jsAsArray : Js → Option (List Js)
  | .arr xs => some xs
  | _ => none

/-- `.filter(...).slice(0, 20).map(([price, quantity]) => ({...}))` for
one side of the book. -/
def processSide (keep : Js → Bool) (side venue : String) (now : ℕ)
    (xs : List Js) : Except Unit (List ParsedLevel) := do
  let kept ← filterQty keep xs
  .ok ((kept.take 20).map (fun pq =>
    { price := jsParseFloat pq.1
      quantity := jsParseFloat pq.2
      side := side
      venue := venue
      timestamp := now }))

/-- The body of `VENUE_CONFIGS.binance.parseMessage` (multiVenueService.ts
lines 16-53) before its try/catch: guard
`data && typeof data === 'object' && data.bids && data.asks &&
Array.isArray(data.bids) && Array.isArray(data.asks)`, then map both
sides; otherwise fall through to `return null`. -/
def binanceParseBody (now : ℕ) (data : Js) : Except Unit (Option ParsedBook) :=
  if jsTruthy data && jsTypeofObject data then do
    let bids ← jsGetField data "bids"
    let asks ← jsGetField data "asks"
    if jsTruthy bids && jsTruthy asks && jsIsArray bids && jsIsArray asks then do
      let pb ← processSide binanceKeep "bid" "Binance" now (jsElems bids)
      let pa ← processSide binanceKeep "ask" "Binance" now (jsElems asks)
      .ok (some ⟨pb, pa⟩)
    else .ok none
  else .ok none

/-- `VENUE_CONFIGS.binance.parseMessage`: the body wrapped in its
`try { ... } catch { ... } return null`, which turns any exception into
`null`. -/
def binanceParseMessage (now : ℕ) (data : Js) : Option ParsedBook :=
  match binanceParseBody now data with
  | .ok r => r
  | .error _ => none

/-- `VENUE_CONFIGS.bybit.parseMessage` (multiVenueService.ts lines
128-159).  It has no try/catch: `!data.data` itself raises a TypeError
when `data` is null or undefined, and `.filter` on a truthy non-array
`data.data.b` / `.a` raises too. -/
def bybitParseMessage (now : ℕ) (data : Js) : Except Unit (Option ParsedBook) := do
  let d ← jsGetField data "data"
  if !jsTruthy d then .ok none else do
  let b ← jsGetField d "b"
  if !jsTruthy b then .ok none else do
  let a ← jsGetField d "a"
  if !jsTruthy a then .ok none else do
  match jsAsArray b, jsAsArray a with
  | some bs, some as2 => do
      let pb ← processSide bybitKeep "bid" "Bybit" now bs
      let pa ← processSide bybitKeep "ask" "Bybit" now as2
      .ok (some ⟨pb, pa⟩)
  | _, _ => .error ()

/-! ## Helper lemmas -/

/-- A JS `reduce`-style sum fold equals the initial value plus the mapped sum. -/
theorem foldl_add_map_sum {α : Type} (f : α → ℚ) (l : List α) (init : ℚ) :
    l.foldl (fun s x => s + f x) init = init + (l.map f).sum := by
  induction l generalizing init with
  | nil => simp
  | cons h t ih => simp [ih, add_assoc]

/-! ## C8 — calculateVWAP -/

/-- C8: `calculateVWAP` returns `Σ(price·qty) / Σ(qty)` over the given
level list, returns exactly 0 for the empty list and for any list whose
total quantity is zero (defined result, no error), and returns the same
value for every permutation of the same input list. -/
theorem calculateVWAP_spec :
    calculateVWAP [] = 0
    ∧ (∀ levels : List PZLevel,
        levels.foldl (fun sum l => sum + l.quantity) 0 = 0 → calculateVWAP levels = 0)
    ∧ (∀ levels : List PZLevel,
        levels.foldl (fun sum l => sum + l.quantity) 0 ≠ 0 →
        calculateVWAP levels
          = (levels.map (fun l => l.price * l.quantity)).sum / (levels.map (·.quantity)).sum)
    ∧ (∀ l₁ l₂ : List PZLevel, l₁.Perm l₂ → calculateVWAP l₁ = calculateVWAP l₂) := by
  refine ⟨by simp [calculateVWAP], fun levels h => by simp [calculateVWAP, h], ?_, ?_⟩
  · intro levels h
    simp only [calculateVWAP, if_neg h]
    rw [foldl_add_map_sum, foldl_add_map_sum, zero_add, zero_add]
  · intro l₁ l₂ hperm
    have hq : (l₁.map (·.quantity)).sum = (l₂.map (·.quantity)).sum :=
      (hperm.map (·.quantity)).sum_eq
    have hpq : (l₁.map (fun l => l.price * l.quantity)).sum
        = (l₂.map (fun l => l.price * l.quantity)).sum :=
      (hperm.map (fun l => l.price * l.quantity)).sum_eq
    simp only [calculateVWAP, foldl_add_map_sum, zero_add, hq, hpq]

/-- Witness for C8 at concrete inputs. -/
theorem calculateVWAP_spec_witness :
    calculateVWAP [] = 0
    ∧ ([⟨2, 3, "bid"⟩, ⟨4, 5, "bid"⟩] : List PZLevel).Perm [⟨4, 5, "bid"⟩, ⟨2, 3, "bid"⟩]
    ∧ calculateVWAP [⟨2, 3, "bid"⟩, ⟨4, 5, "bid"⟩] = calculateVWAP [⟨4, 5, "bid"⟩, ⟨2, 3, "bid"⟩]
    ∧ ([⟨7, 1, "bid"⟩, ⟨9, -1, "bid"⟩] : List PZLevel).foldl (fun sum l => sum + l.quantity) 0 = 0
    ∧ calculateVWAP [⟨7, 1, "bid"⟩, ⟨9, -1, "bid"⟩] = 0 := by
  have hperm : ([⟨2, 3, "bid"⟩, ⟨4, 5, "bid"⟩] : List PZLevel).Perm [⟨4, 5, "bid"⟩, ⟨2, 3, "bid"⟩] :=
    List.Perm.swap _ _ _
  have hzero : ([⟨7, 1, "bid"⟩, ⟨9, -1, "bid"⟩] : List PZLevel).foldl
      (fun sum l => sum + l.quantity) 0 = 0 := by norm_num
  exact ⟨calculateVWAP_spec.1, hperm, calculateVWAP_spec.2.2.2 _ _ hperm, hzero,
    calculateVWAP_spec.2.1 _ hzero⟩

/-! ## C9 — aggregateByPrice idempotence -/

/-- `mergeLevel` keeps the stored level's price. -/
theorem mergeLevel_price (e l : OrderbookLevel) : (mergeLevel e l).price = e.price := rfl

/-- The price keys after one map update: unchanged when the price was
already present, appended otherwise. -/
theorem insertLevel_map_price (acc : List OrderbookLevel) (l : OrderbookLevel) :
    (insertLevel acc l).map (·.price)
      = if l.price ∈ acc.map (·.price) then acc.map (·.price)
        else acc.map (·.price) ++ [l.price] := by
  induction acc with
  | nil => simp [insertLevel]
  | cons e rest ih =>
      by_cases he : e.price = l.price
      · simp [insertLevel, he, mergeLevel_price]
      · have : l.price ∈ (e :: rest).map (·.price) ↔ l.price ∈ rest.map (·.price) := by
          simp [Ne.symm he]
        by_cases hm : l.price ∈ rest.map (·.price)
        · simp [insertLevel, he, ih, hm, this, Ne.symm he]
        · simp [insertLevel, he, ih, hm, this, Ne.symm he]

/-- One map update preserves distinctness of the price keys. -/
theorem insertLevel_nodup (acc : List OrderbookLevel) (l : OrderbookLevel)
    (h : (acc.map (·.price)).Nodup) : ((insertLevel acc l).map (·.price)).Nodup := by
  rw [insertLevel_map_price]
  by_cases hm : l.price ∈ acc.map (·.price)
  · simpa [hm] using h
  · simp [hm, List.nodup_append, h]

/-- After `aggregateByPrice`, no two levels share a price. -/
theorem aggregateByPrice_nodup_aux :
    ∀ (levels acc : List OrderbookLevel), (acc.map (·.price)).Nodup →
      ((levels.foldl insertLevel acc).map (·.price)).Nodup := by
  intro levels
  induction levels with
  | nil => intro acc h; simpa using h
  | cons l rest ih => intro acc h; exact ih _ (insertLevel_nodup acc l h)

/-- Inserting a level whose price is fresh just appends the copy. -/
theorem insertLevel_fresh (acc : List OrderbookLevel) (l : OrderbookLevel)
    (h : l.price ∉ acc.map (·.price)) : insertLevel acc l = acc ++ [l] := by
  induction acc with
  | nil => rfl
  | cons e rest ih =>
      have he : ¬ e.price = l.price := by
        intro hcontra; exact h (by simp [hcontra])
      have hr : l.price ∉ rest.map (·.price) := fun hm => h (by simp [hm])
      simp [insertLevel, he, ih hr]

/-- Folding a list of pairwise-fresh-priced levels into the map appends
them all unchanged. -/
theorem foldl_insertLevel_fresh :
    ∀ (levels acc : List OrderbookLevel),
      (∀ l ∈ levels, l.price ∉ acc.map (·.price)) →
      ((levels.map (·.price)).Nodup) →
      levels.foldl insertLevel acc = acc ++ levels := by
  intro levels
  induction levels with
  | nil => intro acc _ _; simp
  | cons l rest ih =>
      intro acc hfresh hnodup
      have hl : l.price ∉ acc.map (·.price) := hfresh l (by simp)
      have hstep : insertLevel acc l = acc ++ [l] := insertLevel_fresh acc l hl
      have hrest : ∀ x ∈ rest, x.price ∉ (acc ++ [l]).map (·.price) := by
        intro x hx
        simp only [List.map_append, List.mem_append, List.map_cons, List.map_nil,
          List.mem_singleton, not_or]
        refine ⟨fun hm => hfresh x (by simp [hx]) hm, fun hm => ?_⟩
        simp at hnodup
        exact hnodup.1 x hx hm
      have hnr : (rest.map (·.price)).Nodup := by simp at hnodup; exact hnodup.2
      calc (l :: rest).foldl insertLevel acc
          = rest.foldl insertLevel (acc ++ [l]) := by rw [List.foldl_cons, hstep]
        _ = (acc ++ [l]) ++ rest := ih (acc ++ [l]) hrest hnr
        _ = acc ++ l :: rest := by simp

/-- C9: `aggregateByPrice` is idempotent — its output has pairwise-distinct
prices, so a second application returns the very same list of levels. -/
theorem aggregateByPrice_idempotent (levels : List OrderbookLevel) :
    aggregateByPrice (aggregateByPrice levels) = aggregateByPrice levels := by
  have hnodup : ((aggregateByPrice levels).map (·.price)).Nodup :=
    aggregateByPrice_nodup_aux levels [] (by simp)
  have := foldl_insertLevel_fresh (aggregateByPrice levels) []
    (by intro l _ hm; simp at hm) hnodup
  simpa [aggregateByPrice] using this

/-! ## C10 — historical ring buffer -/

/-- Appending below capacity just pushes. -/
theorem addDataPoint_of_lt (maxDataPoints : ℕ) (buffer : List HistoricalDataPoint)
    (p : HistoricalDataPoint) (h : buffer.length < maxDataPoints) :
    addDataPoint maxDataPoints buffer p = buffer ++ [p] := by
  have hnot : ¬ maxDataPoints < (buffer ++ [p]).length := by
    simp only [List.length_append, List.length_cons, List.length_nil]
    omega
  show (if maxDataPoints < (buffer ++ [p]).length then jsSliceLast maxDataPoints (buffer ++ [p])
    else buffer ++ [p]) = buffer ++ [p]
  rw [if_neg hnot]

/-- Appending at capacity drops the oldest sample. -/
theorem addDataPoint_of_eq (maxDataPoints : ℕ) (buffer : List HistoricalDataPoint)
    (p : HistoricalDataPoint) (hm : 0 < maxDataPoints)
    (h : buffer.length = maxDataPoints) :
    addDataPoint maxDataPoints buffer p = (buffer ++ [p]).drop 1 := by
  have hlt : maxDataPoints < (buffer ++ [p]).length := by
    simp only [List.length_append, List.length_cons, List.length_nil]
    omega
  have hne : maxDataPoints ≠ 0 := by omega
  show (if maxDataPoints < (buffer ++ [p]).length then jsSliceLast maxDataPoints (buffer ++ [p])
    else buffer ++ [p]) = (buffer ++ [p]).drop 1
  rw [if_pos hlt, jsSliceLast, if_neg hne]
  congr 1
  simp only [List.length_append, List.length_cons, List.length_nil]
  omega

/-- Folding samples into a buffer that respects the capacity keeps exactly
the most recent `maxDataPoints` of buffer-then-samples, in order. -/
theorem foldl_addDataPoint (maxDataPoints : ℕ) (hm : 0 < maxDataPoints) :
    ∀ (samples buffer : List HistoricalDataPoint), buffer.length ≤ maxDataPoints →
      samples.foldl (addDataPoint maxDataPoints) buffer
        = (buffer ++ samples).drop ((buffer ++ samples).length - maxDataPoints) := by
  intro samples
  induction samples with
  | nil =>
      intro buffer hle
      simp [Nat.sub_eq_zero_of_le (by simpa using hle)]
  | cons p rest ih =>
      intro buffer hle
      have hbig : buffer ++ [p] ++ rest = buffer ++ p :: rest := by simp
      rcases Nat.lt_or_ge buffer.length maxDataPoints with hlt | hge
      · have hlen1 : (buffer ++ [p]).length ≤ maxDataPoints := by
          simp only [List.length_append, List.length_cons, List.length_nil]
          omega
        rw [List.foldl_cons, addDataPoint_of_lt _ _ _ hlt, ih (buffer ++ [p]) hlen1, hbig]
      · have heq : buffer.length = maxDataPoints := le_antisymm hle hge
        have hlen2 : ((buffer ++ [p]).drop 1).length ≤ maxDataPoints := by
          simp only [List.length_drop, List.length_append, List.length_cons, List.length_nil]
          omega
        rw [List.foldl_cons, addDataPoint_of_eq _ _ _ hm heq,
          ih ((buffer ++ [p]).drop 1) hlen2]
        rw [← List.drop_append_of_le_length
          (show 1 ≤ (buffer ++ [p]).length by simp), List.drop_drop]
        rw [hbig]
        congr 1
        simp only [List.length_drop, List.length_append, List.length_cons, List.length_nil]
        omega

/-- C10: for a bucket of capacity `maxDataPoints`, appending
`maxDataPoints + 5` samples through `addDataPoint` leaves exactly the most
recent `maxDataPoints` samples in insertion order (the 5 oldest evicted),
and the buffer length never exceeds the capacity after any append. -/
theorem addDataPoint_ring_buffer :
    (∀ (maxDataPoints : ℕ) (samples : List HistoricalDataPoint),
       0 < maxDataPoints → samples.length = maxDataPoints + 5 →
       samples.foldl (addDataPoint maxDataPoints) [] = samples.drop 5
       ∧ (samples.drop 5).length = maxDataPoints)
    ∧ (∀ (maxDataPoints : ℕ) (buffer : List HistoricalDataPoint)
        (p : HistoricalDataPoint), 0 < maxDataPoints → buffer.length ≤ maxDataPoints →
        (addDataPoint maxDataPoints buffer p).length ≤ maxDataPoints) := by
  constructor
  · intro maxDataPoints samples hm hlen
    have := foldl_addDataPoint maxDataPoints hm samples [] (by simp)
    constructor
    · rw [this]
      simp [hlen]
    · simp [hlen]
  · intro maxDataPoints buffer p hm hle
    rcases Nat.lt_or_ge buffer.length maxDataPoints with hlt | hge
    · rw [addDataPoint_of_lt _ _ _ hlt]
      simp only [List.length_append, List.length_cons, List.length_nil]
      omega
    · have heq : buffer.length = maxDataPoints := le_antisymm hle hge
      rw [addDataPoint_of_eq _ _ _ hm heq]
      simp only [List.length_drop, List.length_append, List.length_cons, List.length_nil]
      omega

/-- Witness for C10 at capacity 60 with 65 samples. -/
theorem addDataPoint_ring_buffer_witness :
    0 < 60
    ∧ ((List.range 65).map (fun i => (⟨i, [], [], "demo"⟩ : HistoricalDataPoint))).length = 60 + 5
    ∧ ((List.range 65).map (fun i => (⟨i, [], [], "demo"⟩ : HistoricalDataPoint))).foldl
        (addDataPoint 60) []
        = ((List.range 65).map (fun i => (⟨i, [], [], "demo"⟩ : HistoricalDataPoint))).drop 5
    ∧ (([] : List HistoricalDataPoint).length ≤ 60)
    ∧ (addDataPoint 60 [] ⟨0, [], [], "demo"⟩).length ≤ 60 := by
  refine ⟨by decide, by simp, ?_, by simp, ?_⟩
  · exact (addDataPoint_ring_buffer.1 60 _ (by decide) (by simp)).1
  · exact addDataPoint_ring_buffer.2 60 [] ⟨0, [], [], "demo"⟩ (by decide) (by simp)

/-! ## C7 — orderbook imbalance -/

/-- C7: with top-10 bid volume 80 and ask volume 20 the component reports
ratio 4.0, dominant side `bid` and imbalance percentage 60.0; with both
sides empty it reports ratio 1 and side `balanced` with percentage 0 —
each value a defined rational, no NaN or Infinity on these paths. -/
theorem imbalanceData_spec :
    imbalanceData
        [⟨100, 50, "bid", none, none, none⟩, ⟨99, 30, "bid", none, none, none⟩]
        [⟨101, 20, "ask", none, none, none⟩]
      = { ratioValue := 4, bidVolume := 80, askVolume := 20
          imbalancePercentage := 60, dominantSide := "bid" }
    ∧ imbalanceData [] []
      = { ratioValue := 1, bidVolume := 0, askVolume := 0
          imbalancePercentage := 0, dominantSide := "balanced" } := by
  constructor
  · norm_num +decide [imbalanceData, abs_of_nonneg]
  · norm_num +decide [imbalanceData]

/-! ## C6 — pressure-zone grouping -/

/-- C6: with one side priced `[100, 100.05, 100.09, 105]` and a 0.1%
grouping threshold, the first three levels form one zone (anchor 100,
absolute threshold 0.1) and 105 its own zone, for the ask side sorted
ascending and for the bid side (same prices) sorted descending. -/
theorem groupPriceLevels_spec :
    (groupPriceLevels
        [⟨100, 1, "ask"⟩, ⟨100.05, 2, "ask"⟩, ⟨100.09, 3, "ask"⟩, ⟨105, 4, "ask"⟩]
        (1/10)).map (fun z => z.levels.map (·.price))
      = [[100, 100.05, 100.09], [105]]
    ∧ (groupPriceLevels
        [⟨100, 1, "bid"⟩, ⟨100.05, 2, "bid"⟩, ⟨100.09, 3, "bid"⟩, ⟨105, 4, "bid"⟩]
        (1/10)).map (fun z => z.levels.map (·.price))
      = [[105], [100.09, 100.05, 100]] := by
  constructor
  · norm_num +decide [groupPriceLevels, groupLoop, createPressureZone, listMin, listMax,
      List.insertionSort, List.orderedInsert, pzBidLe, pzAskLe, abs_of_nonneg, abs_of_nonpos]
  · norm_num +decide [groupPriceLevels, groupLoop, createPressureZone, listMin, listMax,
      List.insertionSort, List.orderedInsert, pzBidLe, pzAskLe, abs_of_nonneg, abs_of_nonpos]

/-! ## C1 — aggregated order book: sortedness and cap hold, uniqueness fails -/

/-- C1 (amended): for every selected-venue set and venue-data map, the
aggregated bids are sorted by non-increasing price, the asks by
non-decreasing price, and each side holds at most 50 entries.  (The
original claim also demanded pairwise-distinct prices per side; the hook
never deduplicates, see `aggregatedOrderbook_duplicate_price`.) -/
theorem aggregatedOrderbook_sorted_capped
    (selectedVenues : List String) (venueData : List (String × VenueSnapshot)) :
    List.Sorted bidLe (aggregatedOrderbook selectedVenues venueData).1
    ∧ List.Sorted askLe (aggregatedOrderbook selectedVenues venueData).2
    ∧ (aggregatedOrderbook selectedVenues venueData).1.length ≤ 50
    ∧ (aggregatedOrderbook selectedVenues venueData).2.length ≤ 50 := by
  refine ⟨?_, ?_, ?_, ?_⟩
  · exact (List.sorted_insertionSort bidLe _).sublist (List.take_sublist _ _)
  · exact (List.sorted_insertionSort askLe _).sublist (List.take_sublist _ _)
  · simp only [aggregatedOrderbook]
    exact List.length_take_le _ _
  · simp only [aggregatedOrderbook]
    exact List.length_take_le _ _

/-- Counterexample to C1 as stated: two venues quoting a bid at the same
price 100 both survive aggregation, so the merged bid side has a duplicate
price. -/
theorem aggregatedOrderbook_duplicate_price :
    ¬ ((aggregatedOrderbook ["binance", "okx"]
          [("binance", ⟨[⟨100, 1, "bid", some "Binance", none, none⟩], [], true, 0, none⟩),
           ("okx", ⟨[⟨100, 2, "bid", some "OKX", none, none⟩], [], true, 0, none⟩)]).1.Pairwise
        (fun a b => a.price ≠ b.price)) := by decide

/-! ## C2 — placeholder tick never replaces live snapshots -/

/-- C2: the 2-second placeholder tick leaves every connected venue's
snapshot (bids, asks, flags) untouched, and every slot it does write is a
placeholder tagged `isConnected = false` with the non-null error string
`"Demo data - connection failed"`, so placeholder data stays
distinguishable from live data. -/
theorem placeholderTick_spec :
    (∀ (selectedVenues : List String)
       (generateDemoData : String → List OrderbookLevel × List OrderbookLevel)
       (now : ℕ) (prev : String → Option VenueSnapshot) (venue : String)
       (s : VenueSnapshot), prev venue = some s → s.isConnected = true →
       placeholderTick selectedVenues generateDemoData now prev venue = some s)
    ∧ (∀ (selectedVenues : List String)
        (generateDemoData : String → List OrderbookLevel × List OrderbookLevel)
        (now : ℕ) (prev : String → Option VenueSnapshot) (venue : String),
        placeholderTick selectedVenues generateDemoData now prev venue = prev venue
        ∨ ∃ s' : VenueSnapshot,
            placeholderTick selectedVenues generateDemoData now prev venue = some s'
            ∧ s'.isConnected = false
            ∧ s'.error = some "Demo data - connection failed") := by
  constructor
  · intro selectedVenues generateDemoData now prev venue s hprev hconn
    have hlive : snapshotIsLive (prev venue) = true := by
      rw [hprev]; exact hconn
    have hcond : ¬ (selectedVenues.contains venue ∧ snapshotIsLive (prev venue) = false) := by
      intro h
      rw [hlive] at h
      exact absurd h.2 (by simp)
    simp only [placeholderTick, if_neg hcond]
    exact hprev
  · intro selectedVenues generateDemoData now prev venue
    by_cases hcond : selectedVenues.contains venue ∧ snapshotIsLive (prev venue) = false
    · right
      refine ⟨{ bids := (generateDemoData venue).1, asks := (generateDemoData venue).2,
                isConnected := false, lastUpdate := now,
                error := some "Demo data - connection failed" }, ?_, rfl, rfl⟩
      simp only [placeholderTick, if_pos hcond]
    · left
      simp only [placeholderTick, if_neg hcond]

/-- Witness for C2: a live binance snapshot survives the tick, and a
missing okx slot gets a tagged placeholder. -/
theorem placeholderTick_spec_witness :
    ((fun v => if v = "binance"
        then some (⟨[], [], true, 7, none⟩ : VenueSnapshot) else none) "binance"
      = some (⟨[], [], true, 7, none⟩ : VenueSnapshot))
    ∧ (⟨[], [], true, 7, none⟩ : VenueSnapshot).isConnected = true
    ∧ placeholderTick ["binance", "okx"] (fun _ => ([], [])) 9
        (fun v => if v = "binance"
          then some (⟨[], [], true, 7, none⟩ : VenueSnapshot) else none) "binance"
      = some (⟨[], [], true, 7, none⟩ : VenueSnapshot)
    ∧ (placeholderTick ["binance", "okx"] (fun _ => ([], [])) 9
        (fun v => if v = "binance"
          then some (⟨[], [], true, 7, none⟩ : VenueSnapshot) else none) "okx"
        = (fun v => if v = "binance"
          then some (⟨[], [], true, 7, none⟩ : VenueSnapshot) else none) "okx"
      ∨ ∃ s' : VenueSnapshot,
          placeholderTick ["binance", "okx"] (fun _ => ([], [])) 9
            (fun v => if v = "binance"
              then some (⟨[], [], true, 7, none⟩ : VenueSnapshot) else none) "okx"
          = some s'
          ∧ s'.isConnected = false
          ∧ s'.error = some "Demo data - connection failed") := by
  refine ⟨by decide, rfl, ?_, ?_⟩
  · exact placeholderTick_spec.1 _ _ _ _ "binance" _ (by decide) rfl
  · exact placeholderTick_spec.2 _ _ _ _ "okx"

/-! ## C3 — disconnect / disconnectAll -/

/-- `disconnect` removes the venue key from the connections map (a no-op
when no socket is mapped, since its key is then already absent). -/
theorem disconnectStep_connections (s : ConnState) (v : String) :
    (disconnectStep s v).connections = s.connections.erase v := by
  unfold disconnectStep
  by_cases h : v ∈ s.connections
  · rw [if_pos h]
  · rw [if_neg h, List.erase_of_not_mem h]

/-- `disconnect` never touches the scheduled reconnect timeouts: the class
stores no handle to them. -/
theorem disconnectStep_pendingTimers (s : ConnState) (v : String) :
    (disconnectStep s v).pendingTimers = s.pendingTimers := by
  unfold disconnectStep
  by_cases h : v ∈ s.connections
  · rw [if_pos h]
  · rw [if_neg h]

/-- Folding `disconnect` over a key list erases exactly those keys. -/
theorem foldl_disconnectStep_connections (keys : List String) :
    ∀ s : ConnState, (keys.foldl disconnectStep s).connections
      = keys.foldl (fun c v => c.erase v) s.connections := by
  induction keys with
  | nil => intro s; rfl
  | cons k rest ih =>
      intro s
      rw [List.foldl_cons, List.foldl_cons, ih, disconnectStep_connections]

/-- Erasing every element of a list from itself, left to right, empties it. -/
theorem foldl_erase_self : ∀ keys : List String,
    keys.foldl (fun c v => c.erase v) keys = [] := by
  intro keys
  induction keys with
  | nil => rfl
  | cons k rest ih =>
      rw [List.foldl_cons, List.erase_cons_head]
      exact ih

/-- C3 (amended): `disconnect(v)` closes and unmaps `v`'s connection (with
close code 1000, which schedules nothing), but it cannot cancel a pending
reconnect timer — no handle is stored — so such a timer may still create a
new connection (see `disconnect_timer_counterexample`); `disconnectAll`
empties the connections map and running it twice equals running it once. -/
theorem disconnect_disconnectAll_spec :
    (∀ (s : ConnState) (v : String), s.connections.Nodup →
        v ∉ (connStep s (.disconnect v)).connections)
    ∧ (∀ (s : ConnState) (v : String),
        (connStep s (.disconnect v)).pendingTimers = s.pendingTimers)
    ∧ (∀ s : ConnState, (connStep s .disconnectAll).connections = [])
    ∧ (∀ s : ConnState,
        connStep (connStep s .disconnectAll) .disconnectAll = connStep s .disconnectAll) := by
  have hall : ∀ s : ConnState, (connStep s .disconnectAll).connections = [] := by
    intro s
    show ((s.connections.foldl disconnectStep s).connections) = []
    rw [foldl_disconnectStep_connections, foldl_erase_self]
  refine ⟨?_, ?_, hall, ?_⟩
  · intro s v hnodup
    show v ∉ (disconnectStep s v).connections
    rw [disconnectStep_connections]
    exact hnodup.not_mem_erase
  · intro s v
    exact disconnectStep_pendingTimers s v
  · intro s
    show ((connStep s .disconnectAll).connections.foldl disconnectStep
      (connStep s .disconnectAll)) = connStep s .disconnectAll
    rw [hall s]
    rfl

/-- Counterexample to C3 as stated: after an abnormal close schedules a
reconnect timer, `disconnect` leaves the timer pending (it is even a
complete no-op, the socket being already unmapped), and the timer then
re-creates a connection before any new `connect` call. -/
theorem disconnect_timer_counterexample :
    (connRun connInit
        [.connect "okx", .wsClose "okx" 1006, .disconnect "okx"]).pendingTimers ≠ []
    ∧ "okx" ∈ (connRun connInit
        [.connect "okx", .wsClose "okx" 1006, .disconnect "okx",
         .timerFire "okx"]).connections := by
  constructor
  · intro h
    have h2 : ((connRun connInit
        [.connect "okx", .wsClose "okx" 1006, .disconnect "okx"]).pendingTimers).length = 1 := by
      norm_num +decide [connRun, connStep, connInit, disconnectStep, insertConn,
        mapGetD, mapSet, mapEraseKey, shouldReconnect, maxReconnectAttempts]
    rw [h] at h2
    exact absurd h2 (by decide)
  · decide

/-- Witness for C3's amended theorem at a concrete state. -/
theorem disconnect_disconnectAll_spec_witness :
    (⟨["okx", "bybit"], ["okx", "bybit"], [("okx", 2)], []⟩ : ConnState).connections.Nodup
    ∧ "okx" ∉ (connStep ⟨["okx", "bybit"], ["okx", "bybit"], [("okx", 2)], []⟩
        (.disconnect "okx")).connections
    ∧ (connStep ⟨["okx", "bybit"], ["okx", "bybit"], [("okx", 2)], []⟩
        (.disconnect "okx")).pendingTimers
      = (⟨["okx", "bybit"], ["okx", "bybit"], [("okx", 2)], []⟩ : ConnState).pendingTimers
    ∧ (connStep ⟨["okx", "bybit"], ["okx", "bybit"], [("okx", 2)], []⟩
        .disconnectAll).connections = []
    ∧ connStep (connStep ⟨["okx", "bybit"], ["okx", "bybit"], [("okx", 2)], []⟩
        .disconnectAll) .disconnectAll
      = connStep ⟨["okx", "bybit"], ["okx", "bybit"], [("okx", 2)], []⟩ .disconnectAll := by
  refine ⟨by decide, ?_, ?_, ?_, ?_⟩
  · exact disconnect_disconnectAll_spec.1 _ "okx" (by decide)
  · exact disconnect_disconnectAll_spec.2.1 _ "okx"
  · exact disconnect_disconnectAll_spec.2.2.1 _
  · exact disconnect_disconnectAll_spec.2.2.2 _

/-! ## C4 — reconnect backoff -/

/-- Membership after a `connections.set`-style insert. -/
theorem mem_insertConn {v w : String} {c : List String} (h : v ∈ insertConn c w) :
    v ∈ c ∨ v = w := by
  unfold insertConn at h
  by_cases hw : w ∈ c
  · rw [if_pos hw] at h; exact Or.inl h
  · rw [if_neg hw] at h
    rcases List.mem_append.mp h with h | h
    · exact Or.inl h
    · exact Or.inr (List.mem_singleton.mp h)

/-- Reading back a key just written to the attempts map. -/
theorem mapGetD_mapSet_self : ∀ (m : List (String × ℕ)) (k : String) (x : ℕ),
    mapGetD (mapSet m k x) k = x := by
  intro m k x
  induction m with
  | nil => simp [mapSet, mapGetD]
  | cons p rest ih =>
      by_cases h : p.1 = k
      · simp [mapSet, mapGetD, h]
      · simp [mapSet, mapGetD, h, ih]

/-- `disconnect` preserves "venue v has no connection and no pending timer". -/
theorem disconnectStep_preserves_absent (v w : String) (s : ConnState)
    (hconn : v ∉ s.connections) (htimer : ∀ t ∈ s.pendingTimers, t.1 ≠ v) :
    v ∉ (disconnectStep s w).connections
    ∧ ∀ t ∈ (disconnectStep s w).pendingTimers, t.1 ≠ v := by
  constructor
  · rw [disconnectStep_connections]
    exact fun hm => hconn (List.mem_of_mem_erase hm)
  · rw [disconnectStep_pendingTimers]
    exact htimer

/-- So does folding `disconnect` over any key list. -/
theorem foldl_disconnectStep_preserves_absent (v : String) :
    ∀ (keys : List String) (s : ConnState),
      v ∉ s.connections → (∀ t ∈ s.pendingTimers, t.1 ≠ v) →
      v ∉ (keys.foldl disconnectStep s).connections
      ∧ ∀ t ∈ (keys.foldl disconnectStep s).pendingTimers, t.1 ≠ v := by
  intro keys
  induction keys with
  | nil => intro s h1 h2; exact ⟨h1, h2⟩
  | cons k rest ih =>
      intro s h1 h2
      have := disconnectStep_preserves_absent v k s h1 h2
      exact ih (disconnectStep s k) this.1 this.2

/-- Any single event other than `connect v` preserves "venue v has no
connection and no pending timer". -/
theorem connStep_preserves_absent (v : String) (s : ConnState) (e : ConnEvent)
    (hconn : v ∉ s.connections) (htimer : ∀ t ∈ s.pendingTimers, t.1 ≠ v)
    (hne : e ≠ .connect v) :
    v ∉ (connStep s e).connections ∧ ∀ t ∈ (connStep s e).pendingTimers, t.1 ≠ v := by
  cases e with
  | connect w =>
      have hwv : w ≠ v := fun h => hne (by rw [h])
      refine ⟨fun hm => ?_, htimer⟩
      rcases mem_insertConn hm with hm | hm
      · exact hconn hm
      · exact hwv hm.symm
  | wsOpen w =>
      simp only [connStep]
      by_cases hw : w ∈ s.connections
      · rw [if_pos hw]; exact ⟨hconn, htimer⟩
      · rw [if_neg hw]; exact ⟨hconn, htimer⟩
  | wsClose w code =>
      simp only [connStep]
      by_cases hw : w ∈ s.connections
      · rw [if_pos hw]
        have hwv : w ≠ v := fun h => hconn (h ▸ hw)
        constructor
        · exact fun hm => hconn (List.mem_of_mem_erase hm)
        · by_cases hcond : shouldReconnect code = true
            ∧ mapGetD s.reconnectAttempts w < maxReconnectAttempts
          · rw [if_pos hcond]
            intro t ht
            rcases List.mem_append.mp ht with ht | ht
            · exact htimer t ht
            · rw [List.mem_singleton.mp ht]
              exact hwv
          · rw [if_neg hcond]
            exact htimer
      · rw [if_neg hw]; exact ⟨hconn, htimer⟩
  | timerFire w =>
      simp only [connStep]
      cases hfind : s.pendingTimers.find? (fun t => decide (t.1 = w)) with
      | none => exact ⟨hconn, htimer⟩
      | some t0 =>
          have ht0mem : t0 ∈ s.pendingTimers := List.mem_of_find?_eq_some hfind
          have ht0w : t0.1 = w := of_decide_eq_true (by simpa using List.find?_some hfind)
          have hwv : w ≠ v := ht0w ▸ htimer t0 ht0mem
          constructor
          · intro hm
            rcases mem_insertConn hm with hm | hm
            · exact hconn hm
            · exact hwv hm.symm
          · intro t ht
            exact htimer t ((List.eraseP_sublist _).subset ht)
  | disconnect w => exact disconnectStep_preserves_absent v w s hconn htimer
  | disconnectAll =>
      exact foldl_disconnectStep_preserves_absent v s.connections s hconn htimer

/-- Once venue v has no connection and no pending timer, no event sequence
avoiding `connect v` ever gives it one again. -/
theorem connRun_preserves_absent (v : String) :
    ∀ (es : List ConnEvent) (s : ConnState),
      v ∉ s.connections → (∀ t ∈ s.pendingTimers, t.1 ≠ v) →
      (∀ e ∈ es, e ≠ .connect v) →
      v ∉ (connRun s es).connections
      ∧ ∀ t ∈ (connRun s es).pendingTimers, t.1 ≠ v := by
  intro es
  induction es with
  | nil => intro s h1 h2 _; exact ⟨h1, h2⟩
  | cons e rest ih =>
      intro s h1 h2 hes
      have hstep := connStep_preserves_absent v s e h1 h2 (hes e (by simp))
      exact ih (connStep s e) hstep.1 hstep.2 (fun e' he' => hes e' (by simp [he']))

/-- C4: the reconnect delay scheduled by the close handler at attempt
counter k is `min(3000 · 1.5^k, 60000)` ms — so attempt 0 waits the base
3000 ms; a successful open resets the counter to 0; a close at counter ≥
`maxReconnectAttempts` schedules nothing; and once a venue has neither a
connection nor a pending timer (as after such a final close), no event
sequence avoiding `connect` ever schedules a reconnect or creates a
connection for it again. -/
theorem reconnect_backoff_spec :
    (∀ k : ℕ, reconnectDelay k = min (3000 * (3/2 : ℚ) ^ k) 60000)
    ∧ reconnectDelay 0 = 3000
    ∧ (∀ (s : ConnState) (v : String) (code : ℕ), v ∈ s.connections →
        shouldReconnect code = true →
        mapGetD s.reconnectAttempts v < maxReconnectAttempts →
        (v, reconnectDelay (mapGetD s.reconnectAttempts v),
          mapGetD s.reconnectAttempts v)
          ∈ (connStep s (.wsClose v code)).pendingTimers)
    ∧ (∀ (s : ConnState) (v : String), v ∈ s.connections →
        mapGetD (connStep s (.wsOpen v)).reconnectAttempts v = 0)
    ∧ (∀ (s : ConnState) (v : String) (code : ℕ),
        maxReconnectAttempts ≤ mapGetD s.reconnectAttempts v →
        (connStep s (.wsClose v code)).pendingTimers = s.pendingTimers)
    ∧ (∀ (s : ConnState) (v : String) (es : List ConnEvent),
        v ∉ s.connections → (∀ t ∈ s.pendingTimers, t.1 ≠ v) →
        (∀ e ∈ es, e ≠ .connect v) →
        v ∉ (connRun s es).connections
        ∧ ∀ t ∈ (connRun s es).pendingTimers, t.1 ≠ v) := by
  refine ⟨fun _ => rfl, ?_, ?_, ?_, ?_, ?_⟩
  · rw [reconnectDelay, pow_zero, mul_one, min_def, if_pos (by norm_num)]
  · intro s v code hv hcode hlt
    simp only [connStep]
    rw [if_pos hv, if_pos ⟨hcode, hlt⟩]
    simp
  · intro s v hv
    simp only [connStep]
    rw [if_pos hv]
    exact mapGetD_mapSet_self _ _ _
  · intro s v code hge
    simp only [connStep]
    by_cases hv : v ∈ s.connections
    · rw [if_pos hv]
      have hcond : ¬ (shouldReconnect code = true
          ∧ mapGetD s.reconnectAttempts v < maxReconnectAttempts) := by
        intro h
        omega
      rw [if_neg hcond]
    · rw [if_neg hv]
  · intro s v es h1 h2 h3
    exact connRun_preserves_absent v es s h1 h2 h3

/-- Witness for C4: a venue at attempt counter 2 being closed with code
1006 schedules the third backoff timer; an open resets the counter; a
counter at the budget schedules nothing; an emptied venue stays empty. -/
theorem reconnect_backoff_spec_witness :
    reconnectDelay 0 = 3000
    ∧ ("okx" ∈ (⟨["okx"], ["okx"], [("okx", 2)], []⟩ : ConnState).connections)
    ∧ shouldReconnect 1006 = true
    ∧ mapGetD [("okx", 2)] "okx" < maxReconnectAttempts
    ∧ ("okx", reconnectDelay (mapGetD [("okx", 2)] "okx"), mapGetD [("okx", 2)] "okx")
        ∈ (connStep ⟨["okx"], ["okx"], [("okx", 2)], []⟩ (.wsClose "okx" 1006)).pendingTimers
    ∧ mapGetD (connStep ⟨["okx"], ["okx"], [("okx", 2)], []⟩
        (.wsOpen "okx")).reconnectAttempts "okx" = 0
    ∧ maxReconnectAttempts ≤ mapGetD [("okx", 5)] "okx"
    ∧ (connStep ⟨[], ["okx"], [("okx", 5)], []⟩ (.wsClose "okx" 1006)).pendingTimers
        = (⟨[], ["okx"], [("okx", 5)], []⟩ : ConnState).pendingTimers
    ∧ ("okx" ∉ (connRun ⟨[], ["okx"], [("okx", 5)], []⟩
          [.connect "bybit", .wsClose "bybit" 1006]).connections
        ∧ ∀ t ∈ (connRun ⟨[], ["okx"], [("okx", 5)], []⟩
          [.connect "bybit", .wsClose "bybit" 1006]).pendingTimers, t.1 ≠ "okx") := by
  refine ⟨reconnect_backoff_spec.2.1, by decide, by decide, by decide, ?_, ?_, by decide, ?_, ?_⟩
  · exact reconnect_backoff_spec.2.2.1 _ "okx" 1006 (by decide) (by decide) (by decide)
  · exact reconnect_backoff_spec.2.2.2.1 _ "okx" (by decide)
  · exact reconnect_backoff_spec.2.2.2.2.1 _ "okx" 1006 (by decide)
  · exact reconnect_backoff_spec.2.2.2.2.2 _ "okx" _ (by decide)
      (fun t ht => absurd ht (List.not_mem_nil t)) (by decide)

/-! ## C5 — venue message parsers -/

/-- Monadic reduction for a successful step. -/
theorem except_bind_ok {ε α β : Type} (a : α) (f : α → Except ε β) :
    (Except.ok a >>= f) = f a := rfl

/-- Monadic reduction for a raised exception. -/
theorem except_bind_error {ε α β : Type} (e : ε) (f : α → Except ε β) :
    ((Except.error e : Except ε α) >>= f) = Except.error e := rfl

/-- The Binance quantity filter keeps exactly the positive parsed numbers. -/
theorem binanceKeep_pos (v : Js) (h : binanceKeep v = true) :
    ∃ q : ℚ, v = Js.num q ∧ 0 < q := by
  cases v with
  | num q => exact ⟨q, rfl, of_decide_eq_true h⟩
  | null => exact Bool.noConfusion h
  | undefined => exact Bool.noConfusion h
  | bool b => exact Bool.noConfusion h
  | nan => exact Bool.noConfusion h
  | str s => exact Bool.noConfusion h
  | arr xs => exact Bool.noConfusion h
  | obj fields => exact Bool.noConfusion h

/-- The Bybit quantity filter keeps exactly the positive parsed numbers. -/
theorem bybitKeep_pos (v : Js) (h : bybitKeep v = true) :
    ∃ q : ℚ, v = Js.num q ∧ 0 < q := by
  cases v with
  | num q => exact ⟨q, rfl, of_decide_eq_true h⟩
  | null => exact Bool.noConfusion h
  | undefined => exact Bool.noConfusion h
  | bool b => exact Bool.noConfusion h
  | nan => exact Bool.noConfusion h
  | str s => exact Bool.noConfusion h
  | arr xs => exact Bool.noConfusion h
  | obj fields => exact Bool.noConfusion h

/-- Every pair surviving the quantity filter satisfied the filter. -/
theorem filterQty_mem (keep : Js → Bool) :
    ∀ (xs : List Js) (pairs : List (Js × Js)), filterQty keep xs = .ok pairs →
      ∀ pq ∈ pairs, keep (jsParseFloat pq.2) = true := by
  intro xs
  induction xs with
  | nil =>
      intro pairs h pq hpq
      simp only [filterQty] at h
      cases h
      exact absurd hpq (List.not_mem_nil pq)
  | cons x rest ih =>
      intro pairs h pq hpq
      simp only [filterQty] at h
      cases hd : jsDestructure2 x with
      | error e => rw [hd, except_bind_error] at h; cases h
      | ok pq0 =>
          rw [hd, except_bind_ok] at h
          cases hr : filterQty keep rest with
          | error e => rw [hr, except_bind_error] at h; cases h
          | ok rest' =>
              rw [hr, except_bind_ok] at h
              by_cases hk : keep (jsParseFloat pq0.2) = true
              · rw [if_pos hk] at h
                cases h
                rcases List.mem_cons.mp hpq with rfl | hpq
                · exact hk
                · exact ih _ hr pq hpq
              · rw [if_neg hk] at h
                cases h
                exact ih _ hr pq hpq

/-- Every level built by `processSide` carries a positive numeric
quantity, provided the filter only keeps such values. -/
theorem processSide_mem (keep : Js → Bool) (side venue : String) (now : ℕ)
    (hkeep : ∀ v : Js, keep v = true → ∃ q : ℚ, v = Js.num q ∧ 0 < q)
    (xs : List Js) (lvls : List ParsedLevel)
    (h : processSide keep side venue now xs = .ok lvls) :
    ∀ l ∈ lvls, ∃ q : ℚ, l.quantity = Js.num q ∧ 0 < q := by
  intro l hl
  simp only [processSide] at h
  cases hf : filterQty keep xs with
  | error e => rw [hf, except_bind_error] at h; cases h
  | ok pairs =>
      rw [hf, except_bind_ok] at h
      cases h
      rcases List.mem_map.mp hl with ⟨pq, hpq, rfl⟩
      have hmem : pq ∈ pairs := List.take_subset 20 pairs hpq
      have hkept := filterQty_mem keep xs pairs hf pq hmem
      rcases hkeep _ hkept with ⟨q, hq, hpos⟩
      exact ⟨q, hq, hpos⟩

/-- C5 (amended): Binance's try/catch-wrapped parser returns null for
every non-orderbook frame — both frames that are not truthy objects and
truthy object/array frames (acks, pings, errors) failing the inner
`data.bids && data.asks && Array.isArray(...)` guard — and never throws;
Bybit's parser returns null whenever any clause of its shape guard
`!data.data || !data.data.b || !data.data.a` fires, but it throws a
TypeError on null or undefined input and on a truthy non-array `data.b`
or `data.a`; and whenever either parser returns a non-null book, every
level of it carries a positive numeric quantity.  (The original claim's
"returns null for every input, including null, without throwing" fails
for Bybit, see `bybit_parseMessage_throws_on_null`.) -/
theorem parseMessage_amended_spec :
    (∀ (now : ℕ) (data : Js),
        jsTruthy data = false ∨ jsTypeofObject data = false →
        binanceParseMessage now data = none)
    ∧ (∀ (now : ℕ) (data bids asks : Js),
        jsGetField data "bids" = .ok bids →
        jsGetField data "asks" = .ok asks →
        (jsTruthy bids && jsTruthy asks && jsIsArray bids && jsIsArray asks) = false →
        binanceParseMessage now data = none)
    ∧ (∀ (now : ℕ) (data : Js) (bk : ParsedBook),
        binanceParseMessage now data = some bk →
        ∀ l ∈ bk.bids ++ bk.asks, ∃ q : ℚ, l.quantity = Js.num q ∧ 0 < q)
    ∧ (∀ (now : ℕ) (data d : Js),
        jsGetField data "data" = .ok d → jsTruthy d = false →
        bybitParseMessage now data = .ok none)
    ∧ (∀ (now : ℕ) (data d b : Js),
        jsGetField data "data" = .ok d → jsTruthy d = true →
        jsGetField d "b" = .ok b → jsTruthy b = false →
        bybitParseMessage now data = .ok none)
    ∧ (∀ (now : ℕ) (data d b a : Js),
        jsGetField data "data" = .ok d → jsTruthy d = true →
        jsGetField d "b" = .ok b → jsTruthy b = true →
        jsGetField d "a" = .ok a → jsTruthy a = false →
        bybitParseMessage now data = .ok none)
    ∧ (∀ now : ℕ, bybitParseMessage now Js.null = .error ()
        ∧ bybitParseMessage now Js.undefined = .error ())
    ∧ (∀ (now : ℕ) (data d b a : Js),
        jsGetField data "data" = .ok d → jsTruthy d = true →
        jsGetField d "b" = .ok b → jsTruthy b = true →
        jsGetField d "a" = .ok a → jsTruthy a = true →
        jsAsArray b = none ∨ jsAsArray a = none →
        bybitParseMessage now data = .error ())
    ∧ (∀ (now : ℕ) (data : Js) (bk : ParsedBook),
        bybitParseMessage now data = .ok (some bk) →
        ∀ l ∈ bk.bids ++ bk.asks, ∃ q : ℚ, l.quantity = Js.num q ∧ 0 < q) := by
  refine ⟨?_, ?_, ?_, ?_, ?_, ?_, fun now => ⟨rfl, rfl⟩, ?_, ?_⟩
  · intro now data h
    have hcond : ¬ ((jsTruthy data && jsTypeofObject data) = true) := by
      rcases h with h | h <;> simp [h]
    unfold binanceParseMessage binanceParseBody
    rw [if_neg hcond]
  · intro now data bids asks hgb hga hguard
    unfold binanceParseMessage binanceParseBody
    by_cases h1 : (jsTruthy data && jsTypeofObject data) = true
    · rw [if_pos h1, hgb, except_bind_ok, hga, except_bind_ok,
        if_neg (by simp [hguard])]
    · rw [if_neg h1]
  · intro now data bk h l hl
    unfold binanceParseMessage at h
    cases hb : binanceParseBody now data with
    | error e => rw [hb] at h; cases h
    | ok r =>
        rw [hb] at h
        subst h
        unfold binanceParseBody at hb
        by_cases h1 : (jsTruthy data && jsTypeofObject data) = true
        case neg => rw [if_neg h1] at hb; cases hb
        case pos =>
        rw [if_pos h1] at hb
        cases hgb : jsGetField data "bids" with
        | error e => rw [hgb, except_bind_error] at hb; cases hb
        | ok bids =>
        rw [hgb, except_bind_ok] at hb
        cases hga : jsGetField data "asks" with
        | error e => rw [hga, except_bind_error] at hb; cases hb
        | ok asks =>
        rw [hga, except_bind_ok] at hb
        by_cases h2 : (jsTruthy bids && jsTruthy asks && jsIsArray bids && jsIsArray asks) = true
        case neg => rw [if_neg h2] at hb; cases hb
        case pos =>
        rw [if_pos h2] at hb
        cases hpb : processSide binanceKeep "bid" "Binance" now (jsElems bids) with
        | error e => rw [hpb, except_bind_error] at hb; cases hb
        | ok pb =>
        rw [hpb, except_bind_ok] at hb
        cases hpa : processSide binanceKeep "ask" "Binance" now (jsElems asks) with
        | error e => rw [hpa, except_bind_error] at hb; cases hb
        | ok pa =>
        rw [hpa, except_bind_ok] at hb
        cases hb
        rcases List.mem_append.mp hl with hl | hl
        · exact processSide_mem _ _ _ _ binanceKeep_pos _ _ hpb l hl
        · exact processSide_mem _ _ _ _ binanceKeep_pos _ _ hpa l hl
  · intro now data d h1 h2
    unfold bybitParseMessage
    rw [h1, except_bind_ok, h2]
    rfl
  · intro now data d b hgd htd hgb htb
    unfold bybitParseMessage
    rw [hgd, except_bind_ok, htd]
    simp only [Bool.not_true, Bool.false_eq_true, if_false]
    rw [hgb, except_bind_ok, htb]
    simp
  · intro now data d b a hgd htd hgb htb hga hta
    unfold bybitParseMessage
    rw [hgd, except_bind_ok, htd]
    simp only [Bool.not_true, Bool.false_eq_true, if_false]
    rw [hgb, except_bind_ok, htb]
    simp only [Bool.not_true, Bool.false_eq_true, if_false]
    rw [hga, except_bind_ok, hta]
    simp
  · intro now data d b a hgd htd hgb htb hga hta hne
    unfold bybitParseMessage
    rw [hgd, except_bind_ok, htd]
    simp only [Bool.not_true, Bool.false_eq_true, if_false]
    rw [hgb, except_bind_ok, htb]
    simp only [Bool.not_true, Bool.false_eq_true, if_false]
    rw [hga, except_bind_ok, hta]
    simp only [Bool.not_true, Bool.false_eq_true, if_false]
    rcases hne with hne | hne
    · rw [hne]
    · cases hb2 : jsAsArray b with
      | none => rfl
      | some bs => rw [hne]
  · intro now data bk h l hl
    unfold bybitParseMessage at h
    cases hgd : jsGetField data "data" with
    | error e => rw [hgd, except_bind_error] at h; cases h
    | ok d =>
    rw [hgd, except_bind_ok] at h
    by_cases htd : jsTruthy d = true
    case neg =>
      rw [Bool.not_eq_true] at htd
      rw [htd] at h
      cases h
    case pos =>
    rw [htd] at h
    simp only [Bool.not_true, Bool.false_eq_true, if_false] at h
    cases hgb : jsGetField d "b" with
    | error e => rw [hgb, except_bind_error] at h; cases h
    | ok b =>
    rw [hgb, except_bind_ok] at h
    by_cases htb : jsTruthy b = true
    case neg =>
      rw [Bool.not_eq_true] at htb
      rw [htb] at h
      cases h
    case pos =>
    rw [htb] at h
    simp only [Bool.not_true, Bool.false_eq_true, if_false] at h
    cases hga : jsGetField d "a" with
    | error e => rw [hga, except_bind_error] at h; cases h
    | ok a =>
    rw [hga, except_bind_ok] at h
    by_cases hta : jsTruthy a = true
    case neg =>
      rw [Bool.not_eq_true] at hta
      rw [hta] at h
      cases h
    case pos =>
    rw [hta] at h
    simp only [Bool.not_true, Bool.false_eq_true, if_false] at h
    cases hab : jsAsArray b with
    | none => rw [hab] at h; cases h
    | some bs =>
    rw [hab] at h
    cases haa : jsAsArray a with
    | none => rw [haa] at h; cases h
    | some as2 =>
    rw [haa] at h
    dsimp only at h
    cases hpb : processSide bybitKeep "bid" "Bybit" now bs with
    | error e => rw [hpb, except_bind_error] at h; cases h
    | ok pb =>
    rw [hpb, except_bind_ok] at h
    cases hpa : processSide bybitKeep "ask" "Bybit" now as2 with
    | error e => rw [hpa, except_bind_error] at h; cases h
    | ok pa =>
    rw [hpa, except_bind_ok] at h
    cases h
    rcases List.mem_append.mp hl with hl | hl
    · exact processSide_mem _ _ _ _ bybitKeep_pos _ _ hpb l hl
    · exact processSide_mem _ _ _ _ bybitKeep_pos _ _ hpa l hl

/-- Counterexample to C5 as stated: Bybit's `parseMessage` has no
try/catch, and `!data.data` on a null frame raises a TypeError instead of
returning null. -/
theorem bybit_parseMessage_throws_on_null :
    bybitParseMessage 0 Js.null = .error () := rfl

set_option maxRecDepth 100000 in
/-- Witness for C5's amended theorem: a numeric ping frame and a truthy
object ack both parse to null at Binance; a depth frame with quantities
"2" and "0" keeps only the positive level; Bybit acks failing each guard
clause parse to null; Bybit throws on null, undefined and a truthy
non-array `b`; and a Bybit depth frame keeps its positive level. -/
theorem parseMessage_amended_spec_witness :
    (jsTruthy (Js.num 0) = false ∨ jsTypeofObject (Js.num 0) = false)
    ∧ binanceParseMessage 0 (Js.num 0) = none
    ∧ jsGetField (Js.obj [("result", Js.null), ("id", Js.num 1)]) "bids"
        = .ok Js.undefined
    ∧ jsGetField (Js.obj [("result", Js.null), ("id", Js.num 1)]) "asks"
        = .ok Js.undefined
    ∧ (jsTruthy Js.undefined && jsTruthy Js.undefined && jsIsArray Js.undefined
        && jsIsArray Js.undefined) = false
    ∧ binanceParseMessage 0 (Js.obj [("result", Js.null), ("id", Js.num 1)]) = none
    ∧ binanceParseMessage 0 (Js.obj
        [("bids", Js.arr [Js.arr [Js.str "100.5", Js.str "2"],
                          Js.arr [Js.str "100", Js.str "0"]]),
         ("asks", Js.arr [])])
      = some ⟨[⟨Js.num 100.5, Js.num 2, "bid", "Binance", 0⟩], []⟩
    ∧ (∀ l ∈ ([⟨Js.num 100.5, Js.num 2, "bid", "Binance", 0⟩] : List ParsedLevel) ++ [],
        ∃ q : ℚ, l.quantity = Js.num q ∧ 0 < q)
    ∧ jsGetField (Js.obj [("data", Js.bool false)]) "data" = .ok (Js.bool false)
    ∧ jsTruthy (Js.bool false) = false
    ∧ bybitParseMessage 0 (Js.obj [("data", Js.bool false)]) = .ok none
    ∧ jsTruthy (Js.obj [("b", Js.num 0), ("a", Js.arr [])]) = true
    ∧ jsTruthy (Js.num 0) = false
    ∧ bybitParseMessage 0 (Js.obj
        [("data", Js.obj [("b", Js.num 0), ("a", Js.arr [])])]) = .ok none
    ∧ jsTruthy (Js.arr []) = true
    ∧ jsTruthy (Js.str "") = false
    ∧ bybitParseMessage 0 (Js.obj
        [("data", Js.obj [("b", Js.arr []), ("a", Js.str "")])]) = .ok none
    ∧ bybitParseMessage 0 Js.null = .error ()
    ∧ bybitParseMessage 0 Js.undefined = .error ()
    ∧ jsTruthy (Js.num 5) = true
    ∧ jsAsArray (Js.num 5) = none
    ∧ bybitParseMessage 0 (Js.obj
        [("data", Js.obj [("b", Js.num 5), ("a", Js.num 6)])]) = .error ()
    ∧ bybitParseMessage 0 (Js.obj
        [("data", Js.obj [("b", Js.arr [Js.arr [Js.str "9", Js.str "3"]]),
                          ("a", Js.arr [])])])
      = .ok (some ⟨[⟨Js.num 9, Js.num 3, "bid", "Bybit", 0⟩], []⟩)
    ∧ (∀ l ∈ ([⟨Js.num 9, Js.num 3, "bid", "Bybit", 0⟩] : List ParsedLevel) ++ [],
        ∃ q : ℚ, l.quantity = Js.num q ∧ 0 < q) := by
  obtain ⟨p1, p2, p3, p4, p5, p6, p7, p8, p9⟩ := parseMessage_amended_spec
  have hbin : binanceParseMessage 0 (Js.obj
      [("bids", Js.arr [Js.arr [Js.str "100.5", Js.str "2"],
                        Js.arr [Js.str "100", Js.str "0"]]),
       ("asks", Js.arr [])])
      = some ⟨[⟨Js.num 100.5, Js.num 2, "bid", "Binance", 0⟩], []⟩ := by
    with_unfolding_all rfl
  have hbyb : bybitParseMessage 0 (Js.obj
      [("data", Js.obj [("b", Js.arr [Js.arr [Js.str "9", Js.str "3"]]),
                        ("a", Js.arr [])])])
      = .ok (some ⟨[⟨Js.num 9, Js.num 3, "bid", "Bybit", 0⟩], []⟩) := by
    with_unfolding_all rfl
  refine ⟨Or.inl rfl, p1 0 _ (Or.inl rfl), rfl, rfl, rfl,
    p2 0 _ Js.undefined Js.undefined rfl rfl rfl, hbin,
    fun l hl => p3 0 _ _ hbin l hl,
    rfl, rfl, p4 0 _ (Js.bool false) rfl rfl,
    rfl, rfl, p5 0 _ _ (Js.num 0) rfl rfl rfl rfl,
    rfl, rfl, p6 0 _ _ (Js.arr []) (Js.str "") rfl rfl rfl rfl rfl rfl,
    (p7 0).1, (p7 0).2,
    rfl, rfl, p8 0 _ _ (Js.num 5) (Js.num 6) rfl rfl rfl rfl rfl rfl (Or.inl rfl),
    hbyb, fun l hl => p9 0 _ _ hbyb l hl⟩
